import Mathlib

/-!
# Verification of the powergate deal watcher

Shallow embedding of `deals/module/dealwatcher/dealwatcher.go`.

The subscription registry `subs map[cid.Cid][]chan<- struct` of the Go
`DealWatcher` is modelled as an association list from identifiers to
subscriber lists; Go map semantics (indexing with zero-value default,
assignment, `delete`) are captured by `lookupSubs`, `setSubs` and
`delSubs`.  Identifiers (`cid.Cid`) and channel handles
(`chan<- struct`) are opaque comparable values in the source, modelled
as naturals.  The background goroutine started by `startDaemon` is
modelled as a trace interpreter over an input script of select events.
-/

/-- Identifier of a watched deal (`cid.Cid`): an opaque comparable value. -/
abbrev Cid := Nat

/-- Subscriber notification-channel handle: an opaque comparable value. -/
abbrev Chan := Nat

/-- The registry `subs map[cid.Cid][]chan<- struct` as an association list. -/
abbrev Subs := List (Cid × List Chan)

/-- The two sentinel errors of the dealwatcher package. -/
inductive Err where
  | errActiveSubscription
  | errNotFound
deriving DecidableEq

/-- Go map read `m[p]`: the entry for key `p`, if present (first match). -/
def lookupSubs : Subs → Cid → Option (List Chan)
  | [], _ => none
  | (q, l) :: rest, p => if q = p then some l else lookupSubs rest p

/-- Go map write `m[p] = v`: replace the entry for `p`, or add one. -/
def setSubs : Subs → Cid → List Chan → Subs
  | [], p, v => [(p, v)]
  | (q, l) :: rest, p, v =>
    if q = p then (p, v) :: rest else (q, l) :: setSubs rest p v

/-- Go `delete(m, p)`: drop the entry for key `p`. -/
def delSubs (m : Subs) (p : Cid) : Subs := m.filter (fun e => e.1 != p)

/-- The read `dw.subs[proposalCid]` as the Go code performs it: missing key gives the
nil slice. -/
def subsOf (m : Subs) (p : Cid) : List Chan := (lookupSubs m p).getD []

/-- The scan in `Unsubscribe`: `idx` of the first `i` with `subs[i] == ch`
(`none` plays the role of the sentinel `-1`). -/
def findIdx : List Chan → Chan → Option Nat
  | [], _ => none
  | x :: xs, c => if x = c then some 0 else (findIdx xs c).map (· + 1)

/-- Go `DealWatcher.Subscribe`: scans `dw.subs[proposalCid]` for `ch`;
a hit returns `ErrActiveSubscription`, otherwise the channel is appended
with `dw.subs[proposalCid] = append(dw.subs[proposalCid], ch)`.
Returned as (registry after the call, returned error). -/
def Subscribe (m : Subs) (ch : Chan) (p : Cid) : Subs × Option Err :=
  if ch ∈ subsOf m p then (m, some .errActiveSubscription)
  else (setSubs m p (subsOf m p ++ [ch]), none)

/-- The in-place removal in `Unsubscribe`:
`subs[idx] = subs[len(subs)-1]; subs = subs[:len(subs)-1]`. -/
def swapRemove (l : List Chan) (idx : Nat) : List Chan :=
  (l.set idx (l.getD (l.length - 1) 0)).dropLast

/-- Go `DealWatcher.Unsubscribe`: missing map entry or missing channel give
`ErrNotFound`; a singleton list deletes the map entry; otherwise the
channel is removed by swap-remove and the shortened slice stored back. -/
def Unsubscribe (m : Subs) (ch : Chan) (p : Cid) : Subs × Option Err :=
  match lookupSubs m p with
  | none => (m, some .errNotFound)
  | some subs =>
    match findIdx subs ch with
    | none => (m, some .errNotFound)
    | some idx =>
      if subs.length = 1 then (delSubs m p, none)
      else (setSubs m p (swapRemove subs idx), none)

/-- A caller-visible registry operation, for reasoning about call
sequences. -/
inductive Op where
  | sub (ch : Chan) (p : Cid)
  | unsub (ch : Chan) (p : Cid)
deriving DecidableEq

/-- Effect of one registry call on the registry (an erroring call leaves
the map untouched, as in the source). -/
def step (m : Subs) : Op → Subs
  | .sub ch p => (Subscribe m ch p).1
  | .unsub ch p => (Unsubscribe m ch p).1

/-- Registry after a sequence of calls. -/
def run (m : Subs) (ops : List Op) : Subs := ops.foldl step m

section MapLemmas

theorem lookup_set (m : Subs) (p : Cid) (v : List Chan) (q : Cid) :
    lookupSubs (setSubs m p v) q = if q = p then some v else lookupSubs m q := by
  induction m with
  | nil =>
    by_cases hq : q = p
    · simp [setSubs, lookupSubs, hq]
    · have hpq : p ≠ q := fun h => hq h.symm
      simp [setSubs, lookupSubs, hq, hpq]
  | cons e rest ih =>
    obtain ⟨a, l⟩ := e
    by_cases hap : a = p
    · subst hap
      by_cases hq : q = a
      · simp [setSubs, lookupSubs, hq]
      · have haq : a ≠ q := fun h => hq h.symm
        simp [setSubs, lookupSubs, hq, haq]
    · by_cases haq : a = q
      · have hq : q ≠ p := fun h => hap (by rw [haq, h])
        simp [setSubs, lookupSubs, hap, haq, hq]
      · simp [setSubs, lookupSubs, hap, haq, ih]

theorem lookup_del (m : Subs) (p : Cid) (q : Cid) :
    lookupSubs (delSubs m p) q = if q = p then none else lookupSubs m q := by
  induction m with
  | nil => simp [delSubs, lookupSubs]
  | cons e rest ih =>
    obtain ⟨a, l⟩ := e
    have hdel : delSubs ((a, l) :: rest) p
        = if a = p then delSubs rest p else (a, l) :: delSubs rest p := by
      by_cases hap : a = p <;> simp [delSubs, List.filter_cons, hap]
    by_cases hap : a = p
    · rw [hdel, if_pos hap, ih]
      by_cases hq : q = p
      · simp [hq]
      · have haq : a ≠ q := fun h => hq (by rw [← h, hap])
        simp [lookupSubs, hq, haq]
    · rw [hdel, if_neg hap]
      by_cases haq : a = q
      · have hq : q ≠ p := fun h => hap (by rw [haq, h])
        simp [lookupSubs, haq, hq]
      · simp [lookupSubs, haq, ih]

end MapLemmas

section SwapRemoveLemmas

theorem getD_last_eq_getLast (l : List Chan) (h : l ≠ []) :
    l.getD (l.length - 1) 0 = l.getLast h := by
  induction l with
  | nil => exact absurd rfl h
  | cons x xs ih =>
    cases xs with
    | nil => rfl
    | cons y ys =>
      have hne : (y :: ys) ≠ ([] : List Chan) := by simp
      have hlen : (x :: y :: ys).length - 1 = (y :: ys).length := by simp
      rw [hlen]
      have hstep : (x :: y :: ys).getD ((y :: ys).length) 0
          = (y :: ys).getD ((y :: ys).length - 1) 0 := by
        simp [List.getD]
      rw [hstep, ih hne, List.getLast_cons hne]

theorem swapRemove_perm_eraseIdx (l : List Chan) (idx : Nat) (h : idx < l.length) :
    List.Perm (swapRemove l idx) (l.eraseIdx idx) := by
  induction l generalizing idx with
  | nil => simp at h
  | cons x xs ih =>
    cases idx with
    | zero =>
      cases hxs : xs with
      | nil => simp [swapRemove, List.eraseIdx]
      | cons y ys =>
        subst hxs
        have hne : (y :: ys) ≠ ([] : List Chan) := by simp
        have hL : (x :: y :: ys).getD ((x :: y :: ys).length - 1) 0
            = (y :: ys).getLast hne := by
          rw [getD_last_eq_getLast (x :: y :: ys) (by simp),
            List.getLast_cons hne]
        have hset : swapRemove (x :: y :: ys) 0
            = (y :: ys).getLast hne :: (y :: ys).dropLast := by
          simp [swapRemove, hL, List.set, List.getLast_eq_getElem]
        rw [hset]
        have hperm : List.Perm ((y :: ys).dropLast ++ [(y :: ys).getLast hne])
            ((y :: ys).getLast hne :: (y :: ys).dropLast) :=
          List.perm_append_singleton _ _
        have hsplit : (y :: ys).dropLast ++ [(y :: ys).getLast hne] = y :: ys :=
          List.dropLast_append_getLast hne
        simpa [List.eraseIdx, hsplit] using hperm.symm
    | succ idx =>
      have hxs : xs ≠ ([] : List Chan) := by
        intro hnil
        subst hnil
        simp at h
      have hidx : idx < xs.length := by simpa using h
      have hL : (x :: xs).getD ((x :: xs).length - 1) 0
          = xs.getD (xs.length - 1) 0 := by
        cases xs with
        | nil => exact absurd rfl hxs
        | cons y ys => simp [List.getD]
      have hcons : swapRemove (x :: xs) (idx + 1) = x :: swapRemove xs idx := by
        have hsetlen : (xs.set idx (xs.getD (xs.length - 1) 0)) ≠ ([] : List Chan) := by
          intro hnil
          have := congrArg List.length hnil
          simp at this
          subst this
          simp at hidx
        unfold swapRemove
        rw [hL]
        show (x :: xs.set idx (xs.getD (xs.length - 1) 0)).dropLast
            = x :: (xs.set idx (xs.getD (xs.length - 1) 0)).dropLast
        cases hs : xs.set idx (xs.getD (xs.length - 1) 0) with
        | nil => exact absurd hs hsetlen
        | cons z zs => rfl
      rw [hcons]
      show List.Perm (x :: swapRemove xs idx) (x :: xs.eraseIdx idx)
      exact (ih idx hidx).cons x

end SwapRemoveLemmas

section FindIdxLemmas

theorem findIdx_none_iff (l : List Chan) (c : Chan) :
    findIdx l c = none ↔ c ∉ l := by
  induction l with
  | nil => simp [findIdx]
  | cons x xs ih =>
    by_cases hx : x = c
    · simp [findIdx, hx]
    · have hcx : c ≠ x := fun h => hx h.symm
      simp [findIdx, hx, hcx, ih]

theorem findIdx_lt_length (l : List Chan) (c : Chan) (idx : Nat)
    (h : findIdx l c = some idx) : idx < l.length := by
  induction l generalizing idx with
  | nil => simp [findIdx] at h
  | cons x xs ih =>
    by_cases hx : x = c
    · have hidx : idx = 0 := by
        simp [findIdx, hx] at h
        omega
      subst hidx
      simp
    · simp [findIdx, hx] at h
      obtain ⟨j, hj, hidx⟩ := h
      have := ih j hj
      simp
      omega

theorem eraseIdx_findIdx_eq_erase (l : List Chan) (c : Chan) (idx : Nat)
    (h : findIdx l c = some idx) : l.eraseIdx idx = l.erase c := by
  induction l generalizing idx with
  | nil => simp [findIdx] at h
  | cons x xs ih =>
    by_cases hx : x = c
    · simp [findIdx, hx] at h
      subst h
      simp [List.eraseIdx, List.erase_cons, hx]
    · simp [findIdx, hx] at h
      obtain ⟨j, hj, hidx⟩ := h
      subst hidx
      simp [List.eraseIdx, List.erase_cons, hx, ih j hj]

theorem swapRemove_perm_erase (l : List Chan) (c : Chan) (idx : Nat)
    (h : findIdx l c = some idx) :
    List.Perm (swapRemove l idx) (l.erase c) := by
  have h1 := swapRemove_perm_eraseIdx l idx (findIdx_lt_length l c idx h)
  rwa [eraseIdx_findIdx_eq_erase l c idx h] at h1

theorem findIdx_mem (l : List Chan) (c : Chan) (idx : Nat)
    (h : findIdx l c = some idx) : c ∈ l := by
  by_contra hmem
  rw [← findIdx_none_iff] at hmem
  rw [hmem] at h
  exact Option.noConfusion h

end FindIdxLemmas

/-- C10: whenever `Subscribe` or `Unsubscribe` returns a non-nil error,
the registry map is left exactly as it was before the call. -/
theorem registry_error_atomic (m : Subs) (ch : Chan) (p : Cid) (e : Err) :
    ((Subscribe m ch p).2 = some e → (Subscribe m ch p).1 = m) ∧
    ((Unsubscribe m ch p).2 = some e → (Unsubscribe m ch p).1 = m) := by
  constructor
  · intro h
    by_cases hc : ch ∈ subsOf m p
    · simp [Subscribe, hc]
    · simp [Subscribe, hc] at h
  · intro h
    cases hl : lookupSubs m p with
    | none => simp [Unsubscribe, hl]
    | some l =>
      cases hidx : findIdx l ch with
      | none => simp [Unsubscribe, hl, hidx]
      | some idx =>
        by_cases hlen : l.length = 1
        · simp [Unsubscribe, hl, hidx, hlen] at h
        · simp [Unsubscribe, hl, hidx, hlen] at h

/-- Witness for C10 at a concrete registry: an active-subscription error
and a not-found error both leave the map untouched. -/
theorem registry_error_atomic_witness :
    (Subscribe [(5, [1])] 1 5).1 = [(5, [1])] ∧
    (Unsubscribe [(5, [1])] 2 5).1 = [(5, [1])] :=
  ⟨(registry_error_atomic [(5, [1])] 1 5 Err.errActiveSubscription).1 (by decide),
   (registry_error_atomic [(5, [1])] 2 5 Err.errNotFound).2 (by decide)⟩

/-- C4: for a pair (channel, id) not currently present, `Subscribe`
returns nil, appends the channel at the end of the identifier's list
(creating it if absent), and changes no other key of the map. -/
theorem subscribe_success_spec (m : Subs) (ch : Chan) (p : Cid)
    (h : ch ∉ subsOf m p) :
    (Subscribe m ch p).2 = none ∧
    lookupSubs (Subscribe m ch p).1 p = some (subsOf m p ++ [ch]) ∧
    ∀ q, q ≠ p → lookupSubs (Subscribe m ch p).1 q = lookupSubs m q := by
  refine ⟨by simp [Subscribe, h], by simp [Subscribe, h, lookup_set], ?_⟩
  intro q hq
  simp [Subscribe, h, lookup_set, hq]

/-- Witness for C4 on the empty registry. -/
theorem subscribe_success_spec_witness :
    (Subscribe [] 1 5).2 = none ∧
    lookupSubs (Subscribe [] 1 5).1 5 = some (subsOf [] 5 ++ [1]) ∧
    ∀ q, q ≠ 5 → lookupSubs (Subscribe [] 1 5).1 q = lookupSubs [] q :=
  subscribe_success_spec [] 1 5 (by decide)

/-- C2: `Unsubscribe` returns `ErrNotFound` exactly when the identifier
has no entry or the channel is not among its subscribers; on success it
removes exactly one occurrence of that channel, touches no other key,
and deletes the identifier's map entry when the list becomes empty. -/
theorem unsubscribe_spec (m : Subs) (ch : Chan) (p : Cid) :
    ((Unsubscribe m ch p).2 = some Err.errNotFound ↔
      lookupSubs m p = none ∨ ∃ l, lookupSubs m p = some l ∧ ch ∉ l) ∧
    (∀ l, lookupSubs m p = some l → ch ∈ l →
      (Unsubscribe m ch p).2 = none ∧
      (∀ q, q ≠ p → lookupSubs (Unsubscribe m ch p).1 q = lookupSubs m q) ∧
      (l.length = 1 → lookupSubs (Unsubscribe m ch p).1 p = none) ∧
      (l.length ≠ 1 → ∃ l', lookupSubs (Unsubscribe m ch p).1 p = some l' ∧
        l'.length = l.length - 1 ∧
        l'.count ch = l.count ch - 1 ∧
        ∀ c, c ≠ ch → l'.count c = l.count c)) := by
  constructor
  · constructor
    · intro h
      cases hl : lookupSubs m p with
      | none => exact Or.inl rfl
      | some l =>
        cases hidx : findIdx l ch with
        | none => exact Or.inr ⟨l, rfl, (findIdx_none_iff l ch).mp hidx⟩
        | some idx =>
          by_cases hlen : l.length = 1 <;>
            simp [Unsubscribe, hl, hidx, hlen] at h
    · intro h
      rcases h with hl | ⟨l, hl, hmem⟩
      · simp [Unsubscribe, hl]
      · have hidx : findIdx l ch = none := (findIdx_none_iff l ch).mpr hmem
        simp [Unsubscribe, hl, hidx]
  · intro l hl hmem
    have hidx : ∃ idx, findIdx l ch = some idx := by
      cases hfi : findIdx l ch with
      | none => exact absurd hmem ((findIdx_none_iff l ch).mp hfi)
      | some idx => exact ⟨idx, rfl⟩
    obtain ⟨idx, hidx⟩ := hidx
    by_cases hlen : l.length = 1
    · have hrun : Unsubscribe m ch p = (delSubs m p, none) := by
        simp [Unsubscribe, hl, hidx, hlen]
      refine ⟨by simp [hrun], ?_, ?_, ?_⟩
      · intro q hq
        simp [hrun, lookup_del, hq]
      · intro _
        simp [hrun, lookup_del]
      · intro hc
        exact absurd hlen hc
    · have hrun : Unsubscribe m ch p = (setSubs m p (swapRemove l idx), none) := by
        simp [Unsubscribe, hl, hidx, hlen]
      have hperm := swapRemove_perm_erase l ch idx hidx
      refine ⟨by simp [hrun], ?_, ?_, ?_⟩
      · intro q hq
        simp [hrun, lookup_set, hq]
      · intro hc
        exact absurd hc hlen
      · intro _
        refine ⟨swapRemove l idx, by simp [hrun, lookup_set], ?_, ?_, ?_⟩
        · rw [hperm.length_eq]
          have := List.length_erase_add_one hmem
          omega
        · rw [hperm.count_eq]
          exact List.count_erase_self ch l
        · intro c hc
          rw [hperm.count_eq]
          exact List.count_erase_of_ne hc l

/-- Witness for C2: successful removal at a concrete registry, and the
not-found error on the empty registry. -/
theorem unsubscribe_spec_witness :
    (Unsubscribe [(5, [1, 2])] 1 5).2 = none ∧
    (Unsubscribe [] 1 5).2 = some Err.errNotFound := by
  constructor
  · exact ((unsubscribe_spec [(5, [1, 2])] 1 5).2 [1, 2] (by decide) (by decide)).1
  · exact ((unsubscribe_spec [] 1 5).1).mpr (Or.inl (by decide))

section RegistrySequences

theorem subsOf_set_self (m : Subs) (p : Cid) (v : List Chan) :
    subsOf (setSubs m p v) p = v := by
  simp [subsOf, lookup_set]

theorem subsOf_set_other (m : Subs) (p : Cid) (v : List Chan) (q : Cid)
    (h : q ≠ p) : subsOf (setSubs m p v) q = subsOf m q := by
  simp [subsOf, lookup_set, h]

theorem subsOf_del_other (m : Subs) (p : Cid) (q : Cid)
    (h : q ≠ p) : subsOf (delSubs m p) q = subsOf m q := by
  simp [subsOf, lookup_del, h]

/-- One registry call other than `Unsubscribe(ch, p)` never removes `ch`
from the subscriber list of `p`. -/
theorem mem_subsOf_step (m : Subs) (ch : Chan) (p : Cid) (op : Op)
    (hmem : ch ∈ subsOf m p) (hop : op ≠ Op.unsub ch p) :
    ch ∈ subsOf (step m op) p := by
  cases op with
  | sub ch' p' =>
    show ch ∈ subsOf (Subscribe m ch' p').1 p
    by_cases hc : ch' ∈ subsOf m p'
    · simpa [Subscribe, hc] using hmem
    · have h1 : (Subscribe m ch' p').1 = setSubs m p' (subsOf m p' ++ [ch']) := by
        simp [Subscribe, hc]
      rw [h1]
      by_cases hp : p = p'
      · subst hp
        rw [subsOf_set_self]
        exact List.mem_append_left _ hmem
      · rw [subsOf_set_other m p' _ p hp]
        exact hmem
  | unsub ch' p' =>
    show ch ∈ subsOf (Unsubscribe m ch' p').1 p
    cases hl : lookupSubs m p' with
    | none => simpa [Unsubscribe, hl] using hmem
    | some l =>
      cases hidx : findIdx l ch' with
      | none => simpa [Unsubscribe, hl, hidx] using hmem
      | some idx =>
        by_cases hp : p' = p
        · subst hp
          have hll : subsOf m p' = l := by simp [subsOf, hl]
          have hch : ch ∈ l := by rwa [hll] at hmem
          have hch' : ch' ∈ l := findIdx_mem l ch' idx hidx
          have hne : ch ≠ ch' := by
            intro heq
            exact hop (by rw [heq])
          by_cases hlen : l.length = 1
          · obtain ⟨a, ha⟩ := List.length_eq_one.mp hlen
            subst ha
            simp at hch hch'
            exact absurd (hch.trans hch'.symm) hne
          · have h1 : (Unsubscribe m ch' p').1 = setSubs m p' (swapRemove l idx) := by
              simp [Unsubscribe, hl, hidx, hlen]
            rw [h1, subsOf_set_self]
            have hperm := swapRemove_perm_erase l ch' idx hidx
            rw [hperm.mem_iff]
            exact (List.mem_erase_of_ne hne).mpr hch
        · have hp' : p ≠ p' := fun h => hp h.symm
          by_cases hlen : l.length = 1
          · have h1 : (Unsubscribe m ch' p').1 = delSubs m p' := by
              simp [Unsubscribe, hl, hidx, hlen]
            rw [h1, subsOf_del_other m p' p hp']
            exact hmem
          · have h1 : (Unsubscribe m ch' p').1 = setSubs m p' (swapRemove l idx) := by
              simp [Unsubscribe, hl, hidx, hlen]
            rw [h1, subsOf_set_other m p' _ p hp']
            exact hmem

/-- A whole call sequence without `Unsubscribe(ch, p)` preserves the
registration of `ch` for `p`. -/
theorem mem_subsOf_run (m : Subs) (ch : Chan) (p : Cid) (ops : List Op)
    (hmem : ch ∈ subsOf m p) (hops : Op.unsub ch p ∉ ops) :
    ch ∈ subsOf (run m ops) p := by
  induction ops generalizing m with
  | nil => simpa [run] using hmem
  | cons op rest ih =>
    have hop : op ≠ Op.unsub ch p := fun h => hops (by simp [h])
    have hrest : Op.unsub ch p ∉ rest := fun h => hops (List.mem_cons_of_mem _ h)
    have h1 := mem_subsOf_step m ch p op hmem hop
    have h2 : run m (op :: rest) = run (step m op) rest := by
      simp [run]
    rw [h2]
    exact ih (step m op) h1 hrest

end RegistrySequences

/-- C1: `Subscribe` on a pair whose channel is already in the
identifier's list returns `ErrActiveSubscription`; and after a
successful `Subscribe(ch, p)`, any call sequence containing no
`Unsubscribe(ch, p)` leaves a second `Subscribe(ch, p)` returning
`ErrActiveSubscription`. -/
theorem subscribe_active_subscription (m : Subs) (ch : Chan) (p : Cid) :
    (ch ∈ subsOf m p → (Subscribe m ch p).2 = some Err.errActiveSubscription) ∧
    (∀ m' ops, Subscribe m ch p = (m', none) → Op.unsub ch p ∉ ops →
      (Subscribe (run m' ops) ch p).2 = some Err.errActiveSubscription) := by
  constructor
  · intro h
    simp [Subscribe, h]
  · intro m' ops hsub hops
    by_cases hc : ch ∈ subsOf m p
    · simp [Subscribe, hc] at hsub
    · have heq : Subscribe m ch p = (setSubs m p (subsOf m p ++ [ch]), none) := by
        simp [Subscribe, hc]
      rw [heq] at hsub
      injection hsub with h1 h2
      have hmem : ch ∈ subsOf m' p := by
        rw [← h1, subsOf_set_self]
        exact List.mem_append_right _ (by simp)
      have hrun := mem_subsOf_run m' ch p ops hmem hops
      simp [Subscribe, hrun]

/-- Witness for C1: subscribing the same pair twice on the empty
registry with no intervening calls. -/
theorem subscribe_active_subscription_witness :
    (Subscribe (run [(5, [1])] []) 1 5).2 = some Err.errActiveSubscription :=
  (subscribe_active_subscription [] 1 5).2 [(5, [1])] [] (by decide) (by decide)

section Invariant

/-- The registry invariant of C3: every present entry is a non-empty,
duplicate-free subscriber list. -/
def InvReg (m : Subs) : Prop :=
  ∀ p l, lookupSubs m p = some l → l ≠ [] ∧ l.Nodup

theorem inv_empty : InvReg [] := by
  intro p l h
  simp [lookupSubs] at h

theorem inv_step (m : Subs) (op : Op) (h : InvReg m) : InvReg (step m op) := by
  cases op with
  | sub ch p =>
    by_cases hc : ch ∈ subsOf m p
    · simpa [step, Subscribe, hc] using h
    · intro q l hq
      rw [show step m (Op.sub ch p) = setSubs m p (subsOf m p ++ [ch]) from by
        simp [step, Subscribe, hc]] at hq
      rw [lookup_set] at hq
      by_cases hqp : q = p
      · rw [if_pos hqp] at hq
        injection hq with hq'
        subst hq'
        refine ⟨by simp, ?_⟩
        have hnd : (subsOf m p).Nodup := by
          cases hl : lookupSubs m p with
          | none => simp [subsOf, hl]
          | some l0 =>
            have h2 := (h p l0 hl).2
            simpa [subsOf, hl] using h2
        have hperm := List.perm_append_singleton ch (subsOf m p)
        rw [hperm.nodup_iff, List.nodup_cons]
        exact ⟨hc, hnd⟩
      · rw [if_neg hqp] at hq
        exact h q l hq
  | unsub ch p =>
    cases hl : lookupSubs m p with
    | none => simpa [step, Unsubscribe, hl] using h
    | some l0 =>
      cases hidx : findIdx l0 ch with
      | none => simpa [step, Unsubscribe, hl, hidx] using h
      | some idx =>
        by_cases hlen : l0.length = 1
        · intro q l hq
          rw [show step m (Op.unsub ch p) = delSubs m p from by
            simp [step, Unsubscribe, hl, hidx, hlen]] at hq
          rw [lookup_del] at hq
          by_cases hqp : q = p
          · rw [if_pos hqp] at hq
            exact Option.noConfusion hq
          · rw [if_neg hqp] at hq
            exact h q l hq
        · intro q l hq
          rw [show step m (Op.unsub ch p) = setSubs m p (swapRemove l0 idx) from by
            simp [step, Unsubscribe, hl, hidx, hlen]] at hq
          rw [lookup_set] at hq
          by_cases hqp : q = p
          · rw [if_pos hqp] at hq
            injection hq with hq'
            subst hq'
            have hperm := swapRemove_perm_erase l0 ch idx hidx
            have hmem := findIdx_mem l0 ch idx hidx
            have h0 := h p l0 hl
            constructor
            · have hlength : (swapRemove l0 idx).length = l0.length - 1 := by
                rw [hperm.length_eq]
                have := List.length_erase_add_one hmem
                omega
              have hpos : 0 < l0.length := List.length_pos.mpr (List.ne_nil_of_mem hmem)
              intro hnil
              rw [hnil] at hlength
              simp at hlength
              omega
            · rw [hperm.nodup_iff]
              exact (h0.2).erase ch
          · rw [if_neg hqp] at hq
            exact h q l hq

theorem inv_run (m : Subs) (ops : List Op) (h : InvReg m) : InvReg (run m ops) := by
  induction ops generalizing m with
  | nil => simpa [run] using h
  | cons op rest ih =>
    have h2 : run m (op :: rest) = run (step m op) rest := by
      simp [run]
    rw [h2]
    exact ih (step m op) (inv_step m op h)

end Invariant

/-- C3: starting from the empty registry, after any sequence of
`Subscribe` and `Unsubscribe` calls, every present identifier has a
non-empty subscriber list and no channel occurs twice in it. -/
theorem registry_invariant (ops : List Op) (p : Cid) (l : List Chan)
    (h : lookupSubs (run [] ops) p = some l) : l ≠ [] ∧ l.Nodup :=
  inv_run [] ops inv_empty p l h

/-- Witness for C3 after one successful subscription. -/
theorem registry_invariant_witness : ([1] : List Chan) ≠ [] ∧ ([1] : List Chan).Nodup :=
  registry_invariant [Op.sub 1 5] 5 [1] (by decide)

section Shutdown

/-- Lifecycle state guarded by `closeLock`: the `closed` flag and
whether `closeCancel` has been invoked on the shared context. -/
structure CloseState where
  closed : Bool
  cancelled : Bool
deriving DecidableEq

/-- Observable behaviour of one `Close` call: the returned error,
whether it invoked `closeCancel`, and whether it blocked on
`closeFinished`. -/
structure CloseRet where
  err : Option Unit
  didCancel : Bool
  didWait : Bool
deriving DecidableEq

/-- Go `DealWatcher.Close`: under `closeLock`, return nil at once if
`closed` is already set; otherwise set it, cancel the shared context,
wait for `closeFinished`, and return nil. -/
def Close (s : CloseState) : CloseState × CloseRet :=
  if s.closed then (s, ⟨none, false, false⟩)
  else ({ closed := true, cancelled := true }, ⟨none, true, true⟩)

end Shutdown

/-- C5: `Close` is idempotent and never errors: the first call sets the
closed flag, cancels the shared context and waits for the completion
signal; every later call observes the flag and returns immediately
without re-running shutdown logic; the returned error is always nil. -/
theorem close_idempotent (s : CloseState) :
    (Close s).2.err = none ∧
    (s.closed = false →
      (Close s).1.closed = true ∧ (Close s).1.cancelled = true ∧
      (Close s).2.didCancel = true ∧ (Close s).2.didWait = true) ∧
    (s.closed = true → Close s = (s, ⟨none, false, false⟩)) ∧
    Close (Close s).1 = ((Close s).1, ⟨none, false, false⟩) := by
  by_cases h : s.closed = true
  · refine ⟨by simp [Close, h], by simp [h], by simp [Close, h], ?_⟩
    simp [Close, h]
  · have h0 : s.closed = false := by simpa using h
    refine ⟨by simp [Close, h0], fun _ => by simp [Close, h0], ?_, ?_⟩
    · intro hc
      exact absurd hc (by simp [h0])
    · simp [Close, h0]

/-- Witness for C5 on a freshly constructed watcher state. -/
theorem close_idempotent_witness :
    (Close ⟨false, false⟩).1.closed = true ∧
    (Close ⟨false, false⟩).2.didCancel = true ∧
    Close (Close ⟨false, false⟩).1 = ((Close ⟨false, false⟩).1, ⟨none, false, false⟩) := by
  have h := close_idempotent ⟨false, false⟩
  exact ⟨(h.2.1 rfl).1, (h.2.1 rfl).2.2.1, h.2.2.2⟩

section Fanout

/-- Runtime state of one subscriber channel: number of buffered signal
values, and the capacity it can still hold without a ready receiver.
(A non-blocking send succeeds exactly when pending is below capacity.) -/
abbrev ChanStates := Chan → Nat × Nat

/-- One observable action of the background goroutine. -/
inductive Act where
  /-- a call of `createUpdateChan` succeeded, yielding connection `id` -/
  | connect (id : Nat)
  /-- a call of `createUpdateChan` failed -/
  | connectFail
  /-- `time.Sleep(time.Second * 30)` between reconnect attempts -/
  | sleep30
  /-- the cleanup function `cls` of connection `id` was invoked -/
  | cleanup (id : Nat)
  /-- `close(dw.closeFinished)`: the completion signal -/
  | closeFin
  /-- the registry lookup `dw.subs[di.ProposalCid]` for identifier `di` -/
  | lookupId (di : Cid)
  /-- non-blocking send into channel `c` succeeded -/
  | deliver (c : Chan)
  /-- non-blocking send into channel `c` hit the default branch
  (slow receiver skipped) -/
  | skipSlow (c : Chan)
deriving DecidableEq

/-- The `select / default` non-blocking send on one channel. -/
def trySend (σ : ChanStates) (c : Chan) : ChanStates × Bool :=
  if (σ c).1 < (σ c).2 then
    (fun d => if d = c then ((σ c).1 + 1, (σ c).2) else σ d, true)
  else (σ, false)

/-- The `for _, s := range subs` send loop of the fanout step. -/
def fanoutList (σ : ChanStates) : List Chan → ChanStates × List Act
  | [] => (σ, [])
  | c :: cs =>
    let t := trySend σ c
    let r := fanoutList t.1 cs
    (r.1, (if t.2 then Act.deliver c else Act.skipSlow c) :: r.2)

/-- The whole fanout step for one update record with identifier `di`:
look up `dw.subs[di.ProposalCid]`; with no entry, `continue`; otherwise
attempt one non-blocking send per registered channel. -/
def fanout (m : Subs) (σ : ChanStates) (di : Cid) : ChanStates × List Act :=
  match lookupSubs m di with
  | none => (σ, [Act.lookupId di])
  | some subs =>
    let r := fanoutList σ subs
    (r.1, Act.lookupId di :: r.2)

/-- The subscriber channel an attempt action concerns. -/
def actChan : Act → Chan
  | .deliver c => c
  | .skipSlow c => c
  | _ => 0

theorem fanoutList_map_actChan (σ : ChanStates) (cs : List Chan) :
    ((fanoutList σ cs).2).map actChan = cs := by
  induction cs generalizing σ with
  | nil => simp [fanoutList]
  | cons c cs ih =>
    by_cases h : (σ c).1 < (σ c).2 <;>
      simp [fanoutList, trySend, h, actChan, ih]

theorem fanoutList_untouched (σ : ChanStates) (cs : List Chan) (d : Chan)
    (h : d ∉ cs) : (fanoutList σ cs).1 d = σ d := by
  induction cs generalizing σ with
  | nil => simp [fanoutList]
  | cons c cs ih =>
    have hdc : d ≠ c := fun hd => h (by simp [hd])
    have hdcs : d ∉ cs := fun hd => h (List.mem_cons_of_mem _ hd)
    by_cases hs : (σ c).1 < (σ c).2
    · simp only [fanoutList, trySend, if_pos hs]
      rw [ih _ hdcs]
      simp [hdc]
    · simp only [fanoutList, trySend, if_neg hs]
      exact ih σ hdcs

/-- With distinct subscribers, the attempt for channel `c` is decided by
the state of `c` alone, and a skipped channel's state is unchanged by
the whole fanout step. -/
theorem fanoutList_isolated (σ : ChanStates) (cs : List Chan) (c : Chan)
    (hnd : cs.Nodup) (hc : c ∈ cs) :
    (if (σ c).1 < (σ c).2 then Act.deliver c else Act.skipSlow c) ∈ (fanoutList σ cs).2 ∧
    ((σ c).2 ≤ (σ c).1 → (fanoutList σ cs).1 c = σ c) := by
  induction cs generalizing σ with
  | nil => simp at hc
  | cons x xs ih =>
    rw [List.nodup_cons] at hnd
    rcases List.mem_cons.mp hc with hcx | hcxs
    · subst hcx
      constructor
      · by_cases hs : (σ c).1 < (σ c).2 <;>
          simp [fanoutList, trySend, hs]
      · intro hfull
        have hs : ¬ (σ c).1 < (σ c).2 := by omega
        simp only [fanoutList, trySend, if_neg hs]
        exact fanoutList_untouched σ xs c hnd.1
    · have hcx : c ≠ x := fun h => hnd.1 (h ▸ hcxs)
      by_cases hs : (σ x).1 < (σ x).2
      · simp only [fanoutList, trySend, if_pos hs]
        have hσ : ∀ r : Nat × Nat,
            (fun d => if d = x then r else σ d) c = σ c := by
          intro r
          simp [hcx]
        have := ih (fun d => if d = x then ((σ x).1 + 1, (σ x).2) else σ d) hnd.2 hcxs
        rw [hσ _] at this
        exact ⟨List.mem_cons_of_mem _ this.1, fun hf => by
          have h2 := this.2 hf
          rw [h2]⟩
      · simp only [fanoutList, trySend, if_neg hs]
        have := ih σ hnd.2 hcxs
        exact ⟨List.mem_cons_of_mem _ this.1, this.2⟩

end Fanout

/-- C6: for each incoming update, a missing registry entry means the
watcher does nothing; otherwise there is exactly one non-blocking send
attempt per registered channel, a full channel is skipped with its state
untouched, and every other subscriber of the same identifier still gets
its own delivery attempt decided by its own channel state. -/
theorem fanout_per_update (m : Subs) (σ : ChanStates) (di : Cid) :
    (lookupSubs m di = none → fanout m σ di = (σ, [Act.lookupId di])) ∧
    (∀ subs, lookupSubs m di = some subs →
      (fanout m σ di).2 = Act.lookupId di :: (fanoutList σ subs).2 ∧
      ((fanoutList σ subs).2).map actChan = subs ∧
      (subs.Nodup → ∀ c ∈ subs,
        (if (σ c).1 < (σ c).2 then Act.deliver c else Act.skipSlow c)
            ∈ (fanoutList σ subs).2 ∧
        ((σ c).2 ≤ (σ c).1 → (fanoutList σ subs).1 c = σ c))) := by
  constructor
  · intro h
    simp [fanout, h]
  · intro subs h
    refine ⟨by simp [fanout, h], fanoutList_map_actChan σ subs, ?_⟩
    intro hnd c hc
    exact fanoutList_isolated σ subs c hnd hc

/-- Witness for C6: two subscribers of identifier 5, channel 1 full and
channel 2 with room; channel 2 is still delivered to. -/
theorem fanout_per_update_witness :
    (Act.deliver 2 ∈ (fanoutList (fun c => if c = 1 then (1, 1) else (0, 1)) [1, 2]).2) ∧
    (Act.skipSlow 1 ∈ (fanoutList (fun c => if c = 1 then (1, 1) else (0, 1)) [1, 2]).2) := by
  have h := (fanout_per_update [(5, [1, 2])]
    (fun c => if c = 1 then (1, 1) else (0, 1)) 5).2 [1, 2] (by decide)
  have h2 := (h.2.2 (by decide) 2 (by decide)).1
  have h1 := (h.2.2 (by decide) 1 (by decide)).1
  constructor
  · simpa using h2
  · simpa using h1

section Daemon

/-- One outcome of the goroutine's select (or of the receive from a
closed stream).  `recv di` is a successful receive of an update record
for identifier `di`; `closedChan ctxErr retries` is the closed-channel
signal (`ok == false`), carrying whether `closeCtx.Err() != nil` at that
moment and how many subsequent `createUpdateChan` calls fail before one
succeeds. -/
inductive Ev where
  | ctxDone
  | recv (di : Cid)
  | closedChan (ctxErr : Bool) (retries : Nat)

/-- The zero value of `api.DealInfo`'s ProposalCid, as obtained by a
receive from a closed Go channel. -/
def zeroCid : Cid := 0

/-- Trace of `retries` failed `createUpdateChan` calls, each followed by
`time.Sleep(time.Second * 30)`. -/
def retryActs : Nat → List Act
  | 0 => []
  | n + 1 => Act.connectFail :: Act.sleep30 :: retryActs n

/-- The goroutine's `for/select` loop, as a trace interpreter.
Arguments: channel states, id of the currently held connection, id the
next successful `createUpdateChan` would get, input script.  Returns
the emitted actions, whether the loop exited via `return`, and the id
of the connection held at the end (the one the deferred `cls()` sees). -/
def loop (m : Subs) : ChanStates → Nat → Nat → List Ev → List Act × Bool × Nat
  | _, cur, _, [] => ([], false, cur)
  | _, cur, _, Ev.ctxDone :: _ => ([], true, cur)
  | σ, cur, nxt, Ev.recv di :: rest =>
    let f := fanout m σ di
    let r := loop m f.1 cur nxt rest
    (f.2 ++ r.1, r.2)
  | σ, cur, nxt, Ev.closedChan ctxErr retries :: rest =>
    if ctxErr then ([], true, cur)
    else
      let f := fanout m σ zeroCid
      let r := loop m f.1 nxt (nxt + 1) rest
      (Act.cleanup cur :: retryActs retries ++ Act.connect nxt :: f.2 ++ r.1, r.2)

/-- The whole background task of `startDaemon`: if the initial
`createUpdateChan` fails the goroutine logs and returns at once — before
the two defers are installed.  Otherwise connection 0 is held, the loop
runs, and on `return` the deferred `cls()` and `close(closeFinished)`
fire in that order. -/
def runDaemon (initOk : Bool) (m : Subs) (σ : ChanStates) (evs : List Ev) : List Act :=
  if initOk then
    let r := loop m σ 0 1 evs
    Act.connect 0 :: r.1 ++ (if r.2.1 then [Act.cleanup r.2.2, Act.closeFin] else [])
  else []

/-- Whether an input script drives the loop to `return`. -/
def exits : List Ev → Bool
  | [] => false
  | Ev.ctxDone :: _ => true
  | Ev.recv _ :: rest => exits rest
  | Ev.closedChan ctxErr _ :: rest => ctxErr || exits rest

/-- Actions of the fanout step (registry lookup, delivery attempts), as
opposed to connection-lifecycle actions. -/
def isFanoutAct : Act → Bool
  | .lookupId _ => true
  | .deliver _ => true
  | .skipSlow _ => true
  | _ => false

theorem fanoutList_fanoutOnly (σ : ChanStates) (cs : List Chan) :
    ∀ a ∈ (fanoutList σ cs).2, isFanoutAct a = true := by
  induction cs generalizing σ with
  | nil => simp [fanoutList]
  | cons c cs ih =>
    intro a ha
    simp only [fanoutList, List.mem_cons] at ha
    rcases ha with ha | ha
    · subst ha
      cases hts : (trySend σ c).2 <;> simp [hts, isFanoutAct]
    · exact ih (trySend σ c).1 a ha

theorem fanout_fanoutOnly (m : Subs) (σ : ChanStates) (di : Cid) :
    ∀ a ∈ (fanout m σ di).2, isFanoutAct a = true := by
  cases hl : lookupSubs m di with
  | none =>
    intro a ha
    simp [fanout, hl] at ha
    simp [ha, isFanoutAct]
  | some subs =>
    intro a ha
    simp only [fanout, hl, List.mem_cons] at ha
    rcases ha with ha | ha
    · simp [ha, isFanoutAct]
    · exact fanoutList_fanoutOnly σ subs a ha

theorem retryActs_no_closeFin (n : Nat) : Act.closeFin ∉ retryActs n := by
  induction n with
  | zero => simp [retryActs]
  | succ k ih => simp [retryActs, ih]

theorem loop_exits (m : Subs) (evs : List Ev) : ∀ σ cur nxt,
    (loop m σ cur nxt evs).2.1 = exits evs := by
  induction evs with
  | nil => intro σ cur nxt; simp [loop, exits]
  | cons e rest ih =>
    intro σ cur nxt
    cases e with
    | ctxDone => simp [loop, exits]
    | recv di => simp [loop, exits, ih]
    | closedChan ctxErr retries =>
      cases ctxErr with
      | false => simp [loop, exits, ih]
      | true => simp [loop, exits]

theorem loop_no_closeFin (m : Subs) (evs : List Ev) : ∀ σ cur nxt,
    Act.closeFin ∉ (loop m σ cur nxt evs).1 := by
  induction evs with
  | nil => intro σ cur nxt; simp [loop]
  | cons e rest ih =>
    intro σ cur nxt
    cases e with
    | ctxDone => simp [loop]
    | recv di =>
      have hf : Act.closeFin ∉ (fanout m σ di).2 := fun h => by
        have := fanout_fanoutOnly m σ di _ h
        simp [isFanoutAct] at this
      show Act.closeFin ∉ (fanout m σ di).2
          ++ (loop m (fanout m σ di).1 cur nxt rest).1
      intro h
      rcases List.mem_append.mp h with h1 | h2
      · exact hf h1
      · exact ih _ _ _ h2
    | closedChan ctxErr retries =>
      cases ctxErr with
      | true => simp [loop]
      | false =>
        have hf : Act.closeFin ∉ (fanout m σ zeroCid).2 := fun h => by
          have := fanout_fanoutOnly m σ zeroCid _ h
          simp [isFanoutAct] at this
        show Act.closeFin ∉ Act.cleanup cur :: retryActs retries
            ++ Act.connect nxt :: (fanout m σ zeroCid).2
            ++ (loop m (fanout m σ zeroCid).1 nxt (nxt + 1) rest).1
        intro h
        simp only [List.mem_cons, List.mem_append] at h
        rcases h with ((h | h) | h | h) | h
        · exact Act.noConfusion h
        · exact retryActs_no_closeFin retries h
        · exact Act.noConfusion h
        · exact hf h
        · exact ih _ _ _ h

/-- Processing a prefix of successful receives only adds fanout actions
and does not change the held connection or the exit outcome. -/
theorem loop_recv_events (m : Subs) (ds : List Cid) :
    ∀ (σ : ChanStates) (cur nxt : Nat) (evs : List Ev),
    ∃ A σ', loop m σ cur nxt (ds.map Ev.recv ++ evs)
        = (A ++ (loop m σ' cur nxt evs).1, (loop m σ' cur nxt evs).2) ∧
      ∀ a ∈ A, isFanoutAct a = true := by
  induction ds with
  | nil =>
    intro σ cur nxt evs
    exact ⟨[], σ, by simp, by simp⟩
  | cons d ds ih =>
    intro σ cur nxt evs
    obtain ⟨A, σ', hA, hFan⟩ := ih (fanout m σ d).1 cur nxt evs
    refine ⟨(fanout m σ d).2 ++ A, σ', ?_, ?_⟩
    · show ((fanout m σ d).2 ++ (loop m (fanout m σ d).1 cur nxt (ds.map Ev.recv ++ evs)).1,
        (loop m (fanout m σ d).1 cur nxt (ds.map Ev.recv ++ evs)).2) = _
      rw [hA]
      simp [List.append_assoc]
    · intro a ha
      rcases List.mem_append.mp ha with h1 | h2
      · exact fanout_fanoutOnly m σ d a h1
      · exact hFan a h2

theorem fanout_head (m : Subs) (σ : ChanStates) (di : Cid) :
    ∃ tl, (fanout m σ di).2 = Act.lookupId di :: tl := by
  cases hl : lookupSubs m di with
  | none => exact ⟨[], by simp [fanout, hl]⟩
  | some subs => exact ⟨(fanoutList σ subs).2, by simp [fanout, hl]⟩

end Daemon

/-- C7 counterexample: when the initial `createUpdateChan` fails, the
goroutine returns before the defers are installed, so the trace contains
no `close(closeFinished)` (and no cleanup) even though the task exited —
contradicting the claim that every exit path signals completion. -/
theorem daemon_init_failure_counterexample :
    runDaemon false [] (fun _ => (0, 1)) [Ev.ctxDone] = [] ∧
    Act.closeFin ∉ runDaemon false [] (fun _ => (0, 1)) [Ev.ctxDone] ∧
    Act.cleanup 0 ∉ runDaemon false [] (fun _ => (0, 1)) [Ev.ctxDone] := by
  refine ⟨by simp [runDaemon], by simp [runDaemon], by simp [runDaemon]⟩

/-- C7 amended: on every exit path of the background task after a
successful initial connection, the deferred `cls()` of the currently
held connection runs and then `close(closeFinished)` fires exactly once,
as the last action before the task returns. -/
theorem daemon_exit_cleanup_then_signal (m : Subs) (σ : ChanStates)
    (evs : List Ev) (h : exits evs = true) :
    ∃ pre c, runDaemon true m σ evs = pre ++ [Act.cleanup c, Act.closeFin] ∧
      Act.closeFin ∉ pre := by
  refine ⟨Act.connect 0 :: (loop m σ 0 1 evs).1, (loop m σ 0 1 evs).2.2, ?_, ?_⟩
  · simp [runDaemon, loop_exits, h]
  · intro hmem
    rcases List.mem_cons.mp hmem with h1 | h2
    · exact Act.noConfusion h1
    · exact loop_no_closeFin m evs σ 0 1 h2

/-- Witness for the amended C7 on a concrete shutdown script. -/
theorem daemon_exit_cleanup_then_signal_witness :
    ∃ pre c, runDaemon true [] (fun _ => (0, 1)) [Ev.ctxDone]
        = pre ++ [Act.cleanup c, Act.closeFin] ∧
      Act.closeFin ∉ pre :=
  daemon_exit_cleanup_then_signal [] (fun _ => (0, 1)) [Ev.ctxDone] (by decide)

/-- C8: after any prefix of delivered updates, a closed-channel signal
with the shutdown context already cancelled makes the task clean up the
held connection and exit with no reconnect attempt; with the context not
cancelled, the task cleans up the broken connection, then `retries`
failed factory calls each followed by a 30-second sleep precede the
successful reconnect. -/
theorem daemon_closed_chan (m : Subs) (σ : ChanStates) (ds : List Cid)
    (r : Nat) (rest : List Ev) :
    (∃ A, runDaemon true m σ (ds.map Ev.recv ++ Ev.closedChan true r :: rest)
        = Act.connect 0 :: (A ++ [Act.cleanup 0, Act.closeFin]) ∧
      ∀ a ∈ A, isFanoutAct a = true) ∧
    (∃ A B, runDaemon true m σ (ds.map Ev.recv ++ Ev.closedChan false r :: rest)
        = Act.connect 0 :: (A ++ Act.cleanup 0 :: (retryActs r ++ Act.connect 1 :: B)) ∧
      ∀ a ∈ A, isFanoutAct a = true) := by
  constructor
  · obtain ⟨A, σ', hA, hFan⟩ :=
      loop_recv_events m ds σ 0 1 (Ev.closedChan true r :: rest)
    have hstop : loop m σ' 0 1 (Ev.closedChan true r :: rest) = ([], true, 0) := by
      simp [loop]
    refine ⟨A, ?_, hFan⟩
    rw [hstop] at hA
    simp [runDaemon, hA]
  · obtain ⟨A, σ', hA, hFan⟩ :=
      loop_recv_events m ds σ 0 1 (Ev.closedChan false r :: rest)
    have hcont : loop m σ' 0 1 (Ev.closedChan false r :: rest)
        = (Act.cleanup 0 :: retryActs r ++ Act.connect 1 :: (fanout m σ' zeroCid).2
            ++ (loop m (fanout m σ' zeroCid).1 1 2 rest).1,
          (loop m (fanout m σ' zeroCid).1 1 2 rest).2) := by
      simp [loop]
    rw [hcont] at hA
    refine ⟨A, (fanout m σ' zeroCid).2 ++ (loop m (fanout m σ' zeroCid).1 1 2 rest).1
      ++ (if (loop m (fanout m σ' zeroCid).1 1 2 rest).2.1
          then [Act.cleanup (loop m (fanout m σ' zeroCid).1 1 2 rest).2.2, Act.closeFin]
          else []), ?_, hFan⟩
    simp [runDaemon, hA]

/-- C9: whenever the stream closes unexpectedly and is rebuilt, the very
next action after the successful reconnect is the registry lookup for
the zero-valued record obtained from the closed channel's receive — the
loop body falls through instead of skipping to the next iteration. -/
theorem daemon_reconnect_fallthrough (m : Subs) (σ : ChanStates)
    (ds : List Cid) (r : Nat) (rest : List Ev) :
    ∃ A B, runDaemon true m σ (ds.map Ev.recv ++ Ev.closedChan false r :: rest)
        = Act.connect 0 :: (A ++ Act.cleanup 0 :: (retryActs r
            ++ Act.connect 1 :: Act.lookupId zeroCid :: B)) ∧
      ∀ a ∈ A, isFanoutAct a = true := by
  obtain ⟨A, σ', hA, hFan⟩ :=
    loop_recv_events m ds σ 0 1 (Ev.closedChan false r :: rest)
  obtain ⟨tl, htl⟩ := fanout_head m σ' zeroCid
  have hcont : loop m σ' 0 1 (Ev.closedChan false r :: rest)
      = (Act.cleanup 0 :: retryActs r ++ Act.connect 1 :: (fanout m σ' zeroCid).2
          ++ (loop m (fanout m σ' zeroCid).1 1 2 rest).1,
        (loop m (fanout m σ' zeroCid).1 1 2 rest).2) := by
    simp [loop]
  rw [hcont] at hA
  refine ⟨A, tl ++ (loop m (fanout m σ' zeroCid).1 1 2 rest).1
    ++ (if (loop m (fanout m σ' zeroCid).1 1 2 rest).2.1
        then [Act.cleanup (loop m (fanout m σ' zeroCid).1 1 2 rest).2.2, Act.closeFin]
        else []), ?_, hFan⟩
  simp [runDaemon, hA, htl]
